import Mathlib

/-!
A shallow embedding of the keyset logic of `tinycrypto` (`crypto.go`).

The authenticated-encryption primitive (AES-GCM in the source) is out of
scope per the specification; it is modelled as an abstract `Cipher` record
of two functions returning `Option`, standing for the package-level Go
functions `Encrypt`/`Decrypt` that can fail (wrong key length, bad
ciphertext).

Time is passed explicitly as an `Int` of unix seconds, standing for
`time.Now().Unix()`; durations are `Int` seconds.  Byte slices are lists of
naturals.  Go errors are mapped to an inductive `KsError`:
`"invalid keyset: empty"` to `emptyKeyset`, `"no valid key in keyset"` to
`noValidKey`, `"no valid decryption key"` to `noValidDecryptionKey`, and a
propagated primitive failure to `primitiveError`.
-/

namespace Tinycrypto

/-- Byte strings; the keyset logic never inspects individual bytes. -/
abbrev Bytes := List Nat

/-- `Key` from `crypto.go`: key material plus creation and expiration unix
timestamps (`int64` in Go, so `Int` here; `ExpiresUnix = 0` means the key
never expires). -/
structure Key where
  value : Bytes
  createdUnix : Int
  expiresUnix : Int
  deriving DecidableEq, Repr

/-- `Keyset` from `crypto.go`: an ordered list of keys (index 0 is the
current key) plus the opaque `TypeID` tag.  The `sync.RWMutex` is dropped:
each operation is modelled as a pure function of the pre-state. -/
structure Keyset where
  keys : List Key
  typeID : Int
  deriving DecidableEq, Repr

/-- `NewKey` from `crypto.go`: wraps caller-supplied material, sets the
creation date, leaves `expiresUnix` at its zero value.  No validation of
the material is performed. -/
def NewKey (key256 : Bytes) (now : Int) : Key :=
  { value := key256, createdUnix := now, expiresUnix := 0 }

/-- The expiry check inlined at `crypto.go` lines 126, 140 and 199:
`k.ExpiresUnix > 0 && k.ExpiresUnix < now`. -/
def isExpired (k : Key) (now : Int) : Bool :=
  decide (k.expiresUnix > 0) && decide (k.expiresUnix < now)

/-- The expiry predicate as the specification words it (section 4.1):
`expiresAt != 0 && expiresAt < now`.  Kept separate from `isExpired`
so the two can be compared. -/
def isExpiredSpec (k : Key) (now : Int) : Bool :=
  decide (k.expiresUnix ≠ 0) && decide (k.expiresUnix < now)

/-- Errors returned by the keyset operations (section 7 of the spec). -/
inductive KsError where
  | emptyKeyset
  | noValidKey
  | noValidDecryptionKey
  | primitiveError
  deriving DecidableEq, Repr

/-- The external authenticated-encryption primitive (spec section 6): the
package-level `Encrypt`/`Decrypt` functions of `crypto.go`, which can fail
(e.g. `aes.NewCipher` rejecting a key of the wrong length, or `gcm.Open`
rejecting a tampered or too-short ciphertext). -/
structure Cipher where
  Encrypt : Bytes → Bytes → Option Bytes
  Decrypt : Bytes → Bytes → Option Bytes

/-- `Keyset.Encrypt` from `crypto.go` (lines 118-130): error on an empty
keyset, error if the front key is expired, otherwise delegate to the
primitive with the front key's value. -/
def Keyset.Encrypt (c : Cipher) (ks : Keyset) (val : Bytes) (now : Int) :
    Except KsError Bytes :=
  match ks.keys with
  | [] => .error .emptyKeyset
  | k :: _ =>
      if isExpired k now then .error .noValidKey
      else
        match c.Encrypt val k.value with
        | some ct => .ok ct
        | none => .error .primitiveError

/-- The loop body of `Keyset.Decrypt` (`crypto.go` lines 139-146): walk the
keys in stored order, skip expired ones, return the first successful
primitive decryption, swallowing per-key failures. -/
def decryptLoop (c : Cipher) (now : Int) (val : Bytes) :
    List Key → Except KsError Bytes
  | [] => .error .noValidDecryptionKey
  | k :: rest =>
      if isExpired k now then decryptLoop c now val rest
      else
        match c.Decrypt val k.value with
        | some res => .ok res
        | none => decryptLoop c now val rest

/-- `Keyset.Decrypt` from `crypto.go` (lines 134-149): `now` is snapshotted
once, then the keys are tried in order. -/
def Keyset.Decrypt (c : Cipher) (ks : Keyset) (val : Bytes) (now : Int) :
    Except KsError Bytes :=
  decryptLoop c now val ks.keys

/-- `Keyset.RotateIn` from `crypto.go` (lines 181-190): prepend the new key;
if the keyset was non-empty, first set the old front key's expiration to
`now + expireAfter`. -/
def Keyset.RotateIn (ks : Keyset) (key : Key) (now expireAfter : Int) :
    Keyset :=
  match ks.keys with
  | [] => { ks with keys := [key] }
  | k0 :: rest =>
      { ks with keys := key :: { k0 with expiresUnix := now + expireAfter } :: rest }

/-- The compaction loop of `Keyset.Purge` (`crypto.go` lines 193-206): the
in-place two-index compaction keeps exactly the keys the expiry check does
not skip, in order, which structurally is this recursion. -/
def purgeLoop (now : Int) : List Key → List Key
  | [] => []
  | k :: rest =>
      if isExpired k now then purgeLoop now rest else k :: purgeLoop now rest

/-- `Keyset.Purge` from `crypto.go`. -/
def Keyset.Purge (ks : Keyset) (now : Int) : Keyset :=
  { ks with keys := purgeLoop now ks.keys }

/-- A concrete test cipher used only to instantiate witnesses: sealing
prepends the key to the value, opening strips it back off when it matches. -/
def cTest : Cipher where
  Encrypt := fun v k => some (k ++ v)
  Decrypt := fun ct k => if ct.take k.length = k then some (ct.drop k.length) else none

/-- A concrete test cipher honouring the AES key-length constraint: any key
whose length is not 16, 24 or 32 bytes is rejected outright, as
`aes.NewCipher` does. -/
def cAES : Cipher where
  Encrypt := fun v k =>
    if k.length = 16 ∨ k.length = 24 ∨ k.length = 32 then some (k ++ v) else none
  Decrypt := fun ct k =>
    if k.length = 16 ∨ k.length = 24 ∨ k.length = 32 then
      (if ct.take k.length = k then some (ct.drop k.length) else none)
    else none

/-- Claim C1: `RotateIn` prepends the new key at index 0; the keyset grows
from N to N+1 keys; and when the keyset was non-empty the previous front
key gets `expiresUnix = now + expireAfter` (overwriting its prior value)
while every other pre-existing key is untouched and the relative order of
all pre-existing keys is preserved. -/
theorem rotateIn_spec (ks : Keyset) (key : Key) (now expireAfter : Int) :
    (ks.RotateIn key now expireAfter).keys.length = ks.keys.length + 1 ∧
    (ks.RotateIn key now expireAfter).keys.head? = some key ∧
    (∀ k0 rest, ks.keys = k0 :: rest →
      (ks.RotateIn key now expireAfter).keys
        = key :: { k0 with expiresUnix := now + expireAfter } :: rest) := by
  obtain ⟨keys, tid⟩ := ks
  cases keys with
  | nil =>
      refine ⟨rfl, rfl, ?_⟩
      intro k0 rest h
      exact absurd h (by simp)
  | cons k0 rest =>
      refine ⟨rfl, rfl, ?_⟩
      intro k0h resth h
      obtain ⟨h1, h2⟩ := List.cons.injEq .. ▸ h
      simp only [Keyset.RotateIn]
      rw [h1, h2]

/-- Witness for C1 at a concrete one-key keyset. -/
theorem rotateIn_spec_witness :
    (Keyset.RotateIn ⟨[⟨[1], 0, 0⟩], 0⟩ ⟨[2], 5, 0⟩ 100 60).keys
      = [⟨[2], 5, 0⟩, ⟨[1], 0, 160⟩] :=
  (rotateIn_spec ⟨[⟨[1], 0, 0⟩], 0⟩ ⟨[2], 5, 0⟩ 100 60).2.2 ⟨[1], 0, 0⟩ [] rfl

/-- An expired key is skipped by the decryption loop. -/
theorem decryptLoop_cons_expired (c : Cipher) (now : Int) (val : Bytes)
    (k : Key) (rest : List Key) (h : isExpired k now = true) :
    decryptLoop c now val (k :: rest) = decryptLoop c now val rest := by
  simp [decryptLoop, h]

/-- An unexpired key is attempted by the decryption loop: its primitive
result is returned on success, otherwise the loop continues. -/
theorem decryptLoop_cons_live (c : Cipher) (now : Int) (val : Bytes)
    (k : Key) (rest : List Key) (h : isExpired k now = false) :
    decryptLoop c now val (k :: rest)
      = match c.Decrypt val k.value with
        | some res => .ok res
        | none => decryptLoop c now val rest := by
  simp [decryptLoop, h]

/-- Claim C2: `Decrypt` tries the keys in stored index order (newest
first), skips every key expired at the single `now` snapshot, returns the
plaintext of the first key whose primitive open succeeds (short-circuit),
and fails with `noValidDecryptionKey` when no candidate is tried or none
succeeds.  All of this is captured by one equation: the result is the
first `some` of the primitive over the unexpired keys in order, or the
error when there is none. -/
theorem decrypt_spec (c : Cipher) (ks : Keyset) (val : Bytes) (now : Int) :
    ks.Decrypt c val now
      = match (ks.keys.filter (fun k => !isExpired k now)).findSome?
              (fun k => c.Decrypt val k.value) with
        | some res => .ok res
        | none => .error .noValidDecryptionKey := by
  show decryptLoop c now val ks.keys = _
  induction ks.keys with
  | nil => rfl
  | cons k rest ih =>
      cases hexp : isExpired k now with
      | true =>
          rw [decryptLoop_cons_expired c now val k rest hexp, ih,
            List.filter_cons]
          simp [hexp]
      | false =>
          rw [decryptLoop_cons_live c now val k rest hexp, List.filter_cons]
          simp only [hexp, Bool.not_false, if_true, List.findSome?_cons]
          cases c.Decrypt val k.value with
          | none => exact ih
          | some res => rfl

/-- Claim C3: `Encrypt` is determined by the key at index 0 alone: empty
keyset gives `emptyKeyset`, an expired front key gives `noValidKey`, and
otherwise the result is exactly the primitive seal output under
`keys[0].value` (or `primitiveError` when the primitive itself rejects). -/
theorem encrypt_spec (c : Cipher) (val : Bytes) (now : Int) :
    (∀ ks : Keyset, ks.keys = [] →
        ks.Encrypt c val now = .error .emptyKeyset) ∧
    (∀ (ks : Keyset) (k : Key), ks.keys.head? = some k →
        isExpired k now = true → ks.Encrypt c val now = .error .noValidKey) ∧
    (∀ (ks : Keyset) (k : Key), ks.keys.head? = some k →
        isExpired k now = false →
        ks.Encrypt c val now
          = match c.Encrypt val k.value with
            | some ct => .ok ct
            | none => .error .primitiveError) := by
  refine ⟨?_, ?_, ?_⟩
  · intro ks h
    simp only [Keyset.Encrypt, h]
  · intro ks k hh hexp
    obtain ⟨keys, tid⟩ := ks
    cases keys with
    | nil => exact absurd hh (by simp)
    | cons k0 rest =>
        obtain rfl : k0 = k := by simpa using hh
        simp only [Keyset.Encrypt, hexp, if_true]
  · intro ks k hh hexp
    obtain ⟨keys, tid⟩ := ks
    cases keys with
    | nil => exact absurd hh (by simp)
    | cons k0 rest =>
        obtain rfl : k0 = k := by simpa using hh
        simp [Keyset.Encrypt, hexp]

/-- Witness for C3: all three branches at concrete inputs. -/
theorem encrypt_spec_witness :
    Keyset.Encrypt cTest ⟨[], 0⟩ [9] 5 = .error .emptyKeyset ∧
    Keyset.Encrypt cTest ⟨[⟨[1], 0, 2⟩], 0⟩ [9] 5 = .error .noValidKey ∧
    Keyset.Encrypt cTest ⟨[⟨[1], 0, 0⟩], 0⟩ [9] 5 = .ok [1, 9] :=
  ⟨(encrypt_spec cTest [9] 5).1 ⟨[], 0⟩ rfl,
   (encrypt_spec cTest [9] 5).2.1 ⟨[⟨[1], 0, 2⟩], 0⟩ ⟨[1], 0, 2⟩ rfl (by decide),
   (encrypt_spec cTest [9] 5).2.2 ⟨[⟨[1], 0, 0⟩], 0⟩ ⟨[1], 0, 0⟩ rfl (by decide)⟩

/-- Claim C4, counterexample: the code's expiry check (`ExpiresUnix > 0`)
disagrees with the claimed predicate (`expiresAt != 0`) on a key with a
negative expiration stamp.  With `expiresUnix = -1` and `now = 1` the code
treats the key as not expired, while the claimed predicate calls it
expired. -/
theorem isExpired_claim_cex :
    isExpired { value := [], createdUnix := 0, expiresUnix := -1 } 1 = false ∧
    isExpiredSpec { value := [], createdUnix := 0, expiresUnix := -1 } 1 = true ∧
    ((-1 : Int) ≠ 0 ∧ (-1 : Int) < 1) := by
  refine ⟨rfl, rfl, by decide, by decide⟩

/-- Claim C4, amended: the expiry predicate of the code is
`expiresUnix > 0 && expiresUnix < now`.  For keys whose `expiresUnix` is
nonnegative this coincides with the claimed `expiresAt != 0 && expiresAt <
now` (so every key with a positive stamp strictly before `now` is expired
and a zero stamp never expires), but a key with a negative stamp is never
expired. -/
theorem isExpired_amended (k : Key) (now : Int) :
    (0 ≤ k.expiresUnix → isExpired k now = isExpiredSpec k now) ∧
    (k.expiresUnix ≤ 0 → isExpired k now = false) := by
  constructor
  · intro h
    unfold isExpired isExpiredSpec
    rcases lt_or_eq_of_le h with hpos | hzero
    · have hne : k.expiresUnix ≠ 0 := ne_of_gt hpos
      simp [hpos, hne]
    · simp [← hzero]
  · intro h
    unfold isExpired
    simp [not_lt_of_le h]

/-- Witness for the amended C4 at concrete keys. -/
theorem isExpired_amended_witness :
    isExpired { value := [], createdUnix := 0, expiresUnix := 4 } 9
      = isExpiredSpec { value := [], createdUnix := 0, expiresUnix := 4 } 9 ∧
    isExpired { value := [], createdUnix := 0, expiresUnix := 0 } 9 = false :=
  ⟨(isExpired_amended ⟨[], 0, 4⟩ 9).1 (by decide),
   (isExpired_amended ⟨[], 0, 0⟩ 9).2 (by decide)⟩

/-- Claim C5: `Purge` removes, in place, exactly the keys expired at the
call's `now`, preserving the relative order of the survivors (the result
is the order-preserving filter of the unexpired keys); it is idempotent;
and when no key is expired it leaves the keys sequence unchanged. -/
theorem purge_spec (ks : Keyset) (now : Int) :
    (ks.Purge now).keys = ks.keys.filter (fun k => !isExpired k now) ∧
    (ks.Purge now).Purge now = ks.Purge now ∧
    ((∀ k ∈ ks.keys, isExpired k now = false) →
      (ks.Purge now).keys = ks.keys) := by
  have hfilter : ∀ l : List Key,
      purgeLoop now l = l.filter (fun k => !isExpired k now) := by
    intro l
    induction l with
    | nil => rfl
    | cons k rest ih =>
        cases hexp : isExpired k now with
        | true => simp [purgeLoop, hexp, List.filter_cons, ih]
        | false => simp [purgeLoop, hexp, List.filter_cons, ih]
  refine ⟨hfilter ks.keys, ?_, ?_⟩
  · show ({ ks with keys := purgeLoop now ks.keys } : Keyset).Purge now = _
    have : purgeLoop now (purgeLoop now ks.keys) = purgeLoop now ks.keys := by
      rw [hfilter, hfilter, List.filter_filter]
      simp
    simp only [Keyset.Purge, this]
  · intro hlive
    show purgeLoop now ks.keys = ks.keys
    rw [hfilter]
    exact List.filter_eq_self.2 (fun k hk => by simp [hlive k hk])

/-- Witness for C5: the spec's own example
`[K1 expired, K2 valid, K3 expired]` purges to `[K2]`, and purging an
all-valid keyset changes nothing. -/
theorem purge_spec_witness :
    (Keyset.Purge ⟨[⟨[1], 0, 5⟩, ⟨[2], 0, 0⟩, ⟨[3], 0, 7⟩], 0⟩ 100).keys
      = [⟨[2], 0, 0⟩] ∧
    (Keyset.Purge ⟨[⟨[2], 0, 0⟩], 0⟩ 100).keys = [⟨[2], 0, 0⟩] :=
  ⟨((purge_spec ⟨[⟨[1], 0, 5⟩, ⟨[2], 0, 0⟩, ⟨[3], 0, 7⟩], 0⟩ 100).1).trans
      (by decide),
   (purge_spec ⟨[⟨[2], 0, 0⟩], 0⟩ 100).2.2 (by decide)⟩

/-- Claim C6: keyset round-trip.  For a keyset holding exactly one
unexpired key, if `Encrypt` succeeds with ciphertext `ct` and the
primitive satisfies its open-after-seal contract at `ct` (opening what was
sealed under the same key returns the plaintext), then `Decrypt` of `ct`
succeeds and returns the original plaintext. -/
theorem keyset_roundtrip (c : Cipher) (k : Key) (tid : Int) (p ct : Bytes)
    (now : Int) (hexp : isExpired k now = false)
    (hcontract : ∀ v w, c.Encrypt v k.value = some w →
      c.Decrypt w k.value = some v)
    (henc : Keyset.Encrypt c ⟨[k], tid⟩ p now = .ok ct) :
    Keyset.Decrypt c ⟨[k], tid⟩ ct now = .ok p := by
  have hseal : c.Encrypt p k.value = some ct := by
    simp only [Keyset.Encrypt, hexp, Bool.false_eq_true, if_false] at henc
    cases h2 : c.Encrypt p k.value with
    | none => rw [h2] at henc; cases henc
    | some w =>
        rw [h2] at henc
        obtain rfl : w = ct := by injection henc
        rfl
  show decryptLoop c now ct [k] = .ok p
  rw [decryptLoop_cons_live c now ct k [] hexp, hcontract p ct hseal]

/-- Witness for C6 with the concrete test cipher and a one-key keyset. -/
theorem keyset_roundtrip_witness :
    Keyset.Decrypt cTest ⟨[⟨[7], 0, 0⟩], 0⟩ [7, 1, 2] 5 = .ok [1, 2] :=
  keyset_roundtrip cTest ⟨[7], 0, 0⟩ 0 [1, 2] [7, 1, 2] 5 rfl
    (fun v w h => by
      obtain rfl : [7] ++ v = w := by injection h
      simp [cTest])
    rfl

/-- Claim C7, counterexample: decrypting against an empty keyset does not
fail with the empty-keyset error; the code falls through the (empty) key
loop and reports `noValidDecryptionKey`, a distinct error kind. -/
theorem decrypt_empty_cex :
    Keyset.Decrypt cTest ⟨[], 0⟩ [1] 0 = .error .noValidDecryptionKey ∧
    KsError.noValidDecryptionKey ≠ KsError.emptyKeyset :=
  ⟨rfl, by decide⟩

/-- Claim C7, amended: decrypt on a keyset with zero keys fails with
`noValidDecryptionKey` (the "no candidate key was tried" error), not with
the empty-keyset error that only `Encrypt` reports. -/
theorem decrypt_empty_amended (c : Cipher) (ks : Keyset) (val : Bytes)
    (now : Int) (h : ks.keys = []) :
    ks.Decrypt c val now = .error .noValidDecryptionKey := by
  show decryptLoop c now val ks.keys = _
  rw [h]
  rfl

/-- Witness for the amended C7 at a concrete empty keyset. -/
theorem decrypt_empty_amended_witness :
    Keyset.Decrypt cTest ⟨[], 7⟩ [3, 4] 11 = .error .noValidDecryptionKey :=
  decrypt_empty_amended cTest ⟨[], 7⟩ [3, 4] 11 rfl

/-- Claim C8, counterexample: rotating with a sufficiently negative
`expireAfter` gives the previous front key the stamp `now + expireAfter =
-10`, which the code's expiry check (`ExpiresUnix > 0`) treats as *never*
expired.  Long after the rotation (`t = 1000 ≥ now = 10`) the key is not
expired, a decryption succeeds under it instead of skipping it, and an
encryption under it would also be accepted — refuting "at every time at or
after the rotation, that key is excluded from new encryptions and skipped
during decryption". -/
theorem rotateIn_nonpositive_cex :
    (Keyset.RotateIn ⟨[⟨[7], 0, 0⟩], 0⟩ ⟨[9], 0, 0⟩ 10 (-20)).keys
      = [⟨[9], 0, 0⟩, ⟨[7], 0, -10⟩] ∧
    isExpired ⟨[7], 0, -10⟩ 1000 = false ∧
    Keyset.Decrypt cTest
        (Keyset.RotateIn ⟨[⟨[7], 0, 0⟩], 0⟩ ⟨[9], 0, 0⟩ 10 (-20)) [7, 1, 2] 1000
      = .ok [1, 2] ∧
    Keyset.Encrypt cTest ⟨[⟨[7], 0, -10⟩], 0⟩ [5] 1000 = .ok [7, 5] :=
  ⟨rfl, rfl, rfl, rfl⟩

/-- Claim C8, amended: `RotateIn` accepts a zero or negative `expireAfter`
without any guard and stamps the previous front key with
`now + expireAfter`.  Provided that stamp is positive, at every time
strictly after the rotation the key is expired, hence skipped during
decryption (the decrypt result equals that of the keyset without it) and
rejected for encryption were it current.  (With a nonpositive stamp the
key instead never expires, and at the rotation instant itself a zero
`expireAfter` leaves the key not yet expired, since expiry is strict.) -/
theorem rotateIn_nonpositive_amended (c : Cipher) (ks : Keyset) (k0 : Key)
    (rest : List Key) (key : Key) (now ea t : Int) (val : Bytes)
    (hne : ks.keys = k0 :: rest) (hea : ea ≤ 0) (hpos : 0 < now + ea)
    (ht : now < t) :
    (ks.RotateIn key now ea).keys
      = key :: { k0 with expiresUnix := now + ea } :: rest ∧
    isExpired { k0 with expiresUnix := now + ea } t = true ∧
    (ks.RotateIn key now ea).Decrypt c val t
      = Keyset.Decrypt c ⟨key :: rest, ks.typeID⟩ val t ∧
    Keyset.Encrypt c ⟨{ k0 with expiresUnix := now + ea } :: rest, ks.typeID⟩
        val t
      = .error .noValidKey := by
  have hlt : now + ea < t := lt_of_le_of_lt (by linarith) ht
  have hexp : isExpired { k0 with expiresUnix := now + ea } t = true := by
    simp [isExpired, hpos, hlt]
  have hkeys : (ks.RotateIn key now ea).keys
      = key :: { k0 with expiresUnix := now + ea } :: rest := by
    obtain ⟨keys, tid⟩ := ks
    simp only at hne
    subst hne
    rfl
  refine ⟨hkeys, hexp, ?_, ?_⟩
  · show decryptLoop c t val (ks.RotateIn key now ea).keys
      = decryptLoop c t val (key :: rest)
    rw [hkeys]
    cases hk : isExpired key t with
    | true =>
        rw [decryptLoop_cons_expired c t val key _ hk,
          decryptLoop_cons_expired c t val _ rest hexp,
          decryptLoop_cons_expired c t val key rest hk]
    | false =>
        rw [decryptLoop_cons_live c t val key _ hk,
          decryptLoop_cons_live c t val key rest hk]
        cases c.Decrypt val key.value with
        | some res => rfl
        | none => rw [decryptLoop_cons_expired c t val _ rest hexp]
  · simp [Keyset.Encrypt, hexp]

/-- Witness for the amended C8: a strictly negative grace with a still
positive stamp, inspected one second after the rotation. -/
theorem rotateIn_nonpositive_amended_witness :
    (Keyset.RotateIn ⟨[⟨[7], 0, 0⟩], 0⟩ ⟨[9], 0, 0⟩ 10 (-3)).Decrypt cTest
        [5] 11
      = Keyset.Decrypt cTest ⟨[⟨[9], 0, 0⟩], 0⟩ [5] 11 :=
  (rotateIn_nonpositive_amended cTest ⟨[⟨[7], 0, 0⟩], 0⟩ ⟨[7], 0, 0⟩ []
    ⟨[9], 0, 0⟩ 10 (-3) 11 [5] rfl (by decide) (by decide) (by decide)).2.2.1

/-- Claim C9, counterexample: wrong-length key material is indeed accepted
unchecked by `NewKey`, and during *encrypt* the primitive's rejection is
surfaced; but during *decrypt* the per-key primitive failure is swallowed
by the trial loop and what surfaces is `noValidDecryptionKey`, a distinct
error kind from the primitive-level error. -/
theorem newKey_wrongLength_cex :
    Keyset.Decrypt cAES ⟨[NewKey [1, 2, 3] 0], 0⟩ [9] 5
      = .error .noValidDecryptionKey ∧
    KsError.noValidDecryptionKey ≠ KsError.primitiveError :=
  ⟨rfl, by decide⟩

/-- Claim C9, amended: `NewKey` performs no length validation — it wraps
material of any length unchanged (creation stamped, no expiration).  Using
wrong-length material surfaces at use time, the primitive rejecting the
key when the operation is attempted: encrypt reports the primitive-level
error directly, while decrypt attempts the key, swallows the per-key
primitive failure, and reports the aggregate `noValidDecryptionKey`. -/
theorem newKey_noValidation_amended (material : Bytes) (now t : Int)
    (c : Cipher) (val : Bytes)
    (hrejectE : ∀ v, c.Encrypt v material = none)
    (hrejectD : ∀ v, c.Decrypt v material = none) :
    NewKey material now
      = { value := material, createdUnix := now, expiresUnix := 0 } ∧
    Keyset.Encrypt c ⟨[NewKey material now], 0⟩ val t
      = .error .primitiveError ∧
    Keyset.Decrypt c ⟨[NewKey material now], 0⟩ val t
      = .error .noValidDecryptionKey := by
  have hexp : isExpired (NewKey material now) t = false := by
    simp [isExpired, NewKey]
  refine ⟨rfl, ?_, ?_⟩
  · simp [Keyset.Encrypt, NewKey, isExpired, hrejectE val]
  · show decryptLoop c t val [NewKey material now] = _
    rw [decryptLoop_cons_live c t val _ [] hexp]
    have hv : (NewKey material now).value = material := rfl
    rw [hv, hrejectD val]
    rfl

/-- Witness for the amended C9: three-byte material rejected by the
AES-length-checking cipher at encryption time. -/
theorem newKey_noValidation_amended_witness :
    Keyset.Encrypt cAES ⟨[NewKey [1, 2, 3] 0], 0⟩ [9] 5
      = .error .primitiveError :=
  (newKey_noValidation_amended [1, 2, 3] 0 5 cAES [9]
    (fun _ => rfl) (fun _ => rfl)).2.1

/-- Claim C10: `RotateIn` stores the caller's new key unchanged at index 0
(no field of it is modified), and rotating into an empty keyset yields the
one-element keyset holding exactly that key, with no expiration assigned
to it or to anything else. -/
theorem rotateIn_newKey_frame (ks : Keyset) (key : Key) (now ea : Int) :
    (ks.RotateIn key now ea).keys.head? = some key ∧
    (ks.keys = [] → ks.RotateIn key now ea = ⟨[key], ks.typeID⟩) := by
  obtain ⟨keys, tid⟩ := ks
  cases keys with
  | nil => exact ⟨rfl, fun _ => rfl⟩
  | cons k0 rest => exact ⟨rfl, fun h => absurd h (by simp)⟩

/-- Witness for C10: rotating a key carrying its own fields into an empty
keyset returns exactly that key. -/
theorem rotateIn_newKey_frame_witness :
    Keyset.RotateIn ⟨[], 3⟩ ⟨[4], 1, 2⟩ 9 9 = ⟨[⟨[4], 1, 2⟩], 3⟩ :=
  (rotateIn_newKey_frame ⟨[], 3⟩ ⟨[4], 1, 2⟩ 9 9).2 rfl

end Tinycrypto
